import Mathlib

/-!
Verification of the build orchestrator in `src/index.ts` (bun-pkg-builder).
The code is shallowly embedded: paths are POSIX strings (`sep` is '/'),
Node `path.join` / `path.dirname` are modelled faithfully including their
normalisation step, JS `Set` keeps first-occurrence insertion order, and
`Set.prototype.intersection` orders its result by the receiver (all concrete
evaluations below are in the `thisSize ≤ otherSize` regime of the spec, where
that order is unambiguous).
-/

namespace BunPkg

/-- Helper for `splitChar`: current segment (up to the first '/') paired with
the remaining segments. -/
def splitCharNE : List Char → List Char × List (List Char)
  | [] => ([], [])
  | c :: cs =>
    let r := splitCharNE cs
    if c = '/' then ([], r.1 :: r.2) else (c :: r.1, r.2)

/-- JS `path.split(sep)` on POSIX: split a character list at every '/'.
`splitChar [] = [[]]` matches `"".split("/") = [""]`. -/
def splitChar (l : List Char) : List (List Char) :=
  (splitCharNE l).1 :: (splitCharNE l).2

/-- Segment list of a path string, as produced by `path.split(sep)`. -/
def segsOf (p : String) : List String :=
  (splitChar p.data).map (fun l => String.mk l)

/-- JS `new Set(list)`: deduplicate keeping the first occurrence of each
element, preserving insertion order. -/
def firstDedupAux (seen : List String) : List String → List String
  | [] => []
  | x :: xs =>
    if seen.contains x then firstDedupAux seen xs
    else x :: firstDedupAux (x :: seen) xs

/-- JS `[...new Set(list)]`. -/
def firstDedup (l : List String) : List String := firstDedupAux [] l

/-- JS `acc.intersection(cur)` on sets represented as ordered duplicate-free
lists: keep the elements of `acc` (receiver order) that occur in `cur`. -/
def interOrdered (acc cur : List String) : List String :=
  acc.filter (fun s => cur.contains s)

/-- The segment list produced inside `basepath` (src/index.ts:10):
`paths.map(p => new Set(p.split(sep))).reduce((acc, cur) => acc.intersection(cur))`.
JS `reduce` with no initial value throws on `[]`; the `[]` case is unreachable
for the callers in the source, which always pass three paths. -/
def basepathSegs (paths : List String) : List String :=
  match paths.map (fun p => firstDedup (segsOf p)) with
  | [] => []
  | s :: ss => ss.foldl interOrdered s

/-- Node `path.posix` `normalizeString`: resolve "." and ".." segments.
`allow` is `allowAboveRoot` (true for relative inputs). -/
def normSegs (allow : Bool) (acc : List String) : List String → List String
  | [] => acc
  | seg :: rest =>
    if seg = "" ∨ seg = "." then normSegs allow acc rest
    else if seg = ".." then
      if acc.getLast? = some ".." then
        (if allow then normSegs allow (acc ++ [".."]) rest
         else normSegs allow acc rest)
      else if acc = [] then
        (if allow then normSegs allow [".."] rest else normSegs allow acc rest)
      else normSegs allow acc.dropLast rest
    else normSegs allow (acc ++ [seg]) rest

/-- Interleave path segments with '/'. -/
def joinSegs : List String → String
  | [] => ""
  | [s] => s
  | s :: rest => s ++ "/" ++ joinSegs rest

/-- JS `String.prototype.startsWith(search)`. -/
def jsStartsWith (s search : String) : Bool :=
  search.data.isPrefixOf s.data

/-- Node `path.posix.normalize`. -/
def normalizeP (p : String) : String :=
  if p = "" then "."
  else
    let isAbs := jsStartsWith p "/"
    let trailing : Bool := p.data.getLast? == some '/'
    let segs := normSegs (!isAbs) [] (segsOf p)
    let body := joinSegs segs
    if body = "" then
      (if isAbs then "/" else if trailing then "./" else ".")
    else
      let body2 := if trailing then body ++ "/" else body
      if isAbs then "/" ++ body2 else body2

/-- Node `path.posix.join`: drop empty arguments, interleave with '/',
normalize; with nothing left the result is ".". -/
def joinP (parts : List String) : String :=
  match parts.filter (fun s => !(s == "")) with
  | [] => "."
  | f :: fs => normalizeP (joinSegs (f :: fs))

/-- `basepath` (src/index.ts:9-11): join the order-preserving intersection of
the segment sets of the given paths. -/
def basepath (paths : List String) : String :=
  joinP (basepathSegs paths)

/-- Node `path.posix.dirname`. -/
def dirnameP (p : String) : String :=
  match p.data with
  | [] => "."
  | c :: rest =>
    let hasRoot := c = '/'
    let r1 := rest.reverse.dropWhile (fun ch => ch = '/')
    let r2 := r1.dropWhile (fun ch => !(ch = '/'))
    if r2 = [] then (if hasRoot then "/" else ".")
    else if hasRoot ∧ r2.length = 1 then "//"
    else String.mk ((c :: rest).take r2.length)

/-! ## Data model (src/index.ts types and collaborator results) -/

/-- Bun `BuildMessage`/`ResolveMessage`: the fields the orchestrator reads. -/
structure BunMessage where
  message : String
  level : String
deriving DecidableEq, Repr

/-- Result of one `Bun.build` invocation with `throw: false`. -/
structure BunResult where
  success : Bool
  logs : List BunMessage
deriving DecidableEq, Repr

/-- `typescript.DiagnosticCategory`. -/
inductive DiagnosticCategory where
  | warning
  | error
  | suggestion
  | message
deriving DecidableEq, Repr

/-- A TypeScript diagnostic: only the category is inspected by the code. -/
structure TsDiagnostic where
  category : DiagnosticCategory
deriving DecidableEq, Repr

/-- `program.emit()` result: post-emit diagnostics plus the skipped flag. -/
structure EmitResult where
  diagnostics : List TsDiagnostic
  emitSkipped : Bool
deriving DecidableEq, Repr

/-- Behaviour of the external compiler for one `writeDtsBundle` call:
pre-emit diagnostics of the program and the emit result. -/
structure TsEnv where
  preEmit : List TsDiagnostic
  emitResult : EmitResult
deriving DecidableEq, Repr

/-- A JS value that a promise can reject with: the code only distinguishes
`instanceof Error` from everything else, and only strings occur. -/
inductive JsValue where
  | str (s : String)
  | errObj (msg : String)
deriving DecidableEq, Repr

/-- JS `e instanceof Error`. -/
def instanceofError : JsValue → Bool
  | .errObj _ => true
  | .str _ => false

/-- The `Manifest` type (src/index.ts:52-96). -/
structure Manifest where
  entry : String
  main : String
  module : String
  types : String
  cdn : Option String
  external : List String
deriving DecidableEq, Repr

/-- The Builder configuration fields (src/index.ts:106-112). -/
structure Config where
  target : String
  watch : Bool
  clean : Bool
  verbose : Bool
deriving DecidableEq, Repr

/-- Environment of one build cycle: what the collaborators (Bun bundler,
TypeScript compiler, file system) answer when invoked. -/
structure BuildEnv where
  cwd : String
  esmResult : BunResult
  cjsResult : BunResult
  iifeResult : BunResult
  dtsEnv : TsEnv
  fsExists : String → Bool

/-- Observable events of one build cycle, in program order. -/
inductive Ev where
  | rm (path : String)
  | logOutput (format : String) (msg : String)
  | logError (msg : String)
  | logObject
  | abortSig
  | exitProc (code : Nat)
deriving DecidableEq, Repr

/-! ## Operations -/

/-- `strip` (src/index.ts:7): `path.replace(process.cwd(), "")`, i.e. remove
the first occurrence of `cwd`. -/
def replaceFirstAux (pat : List Char) : List Char → List Char
  | [] => []
  | c :: cs =>
    if pat.isPrefixOf (c :: cs) then (c :: cs).drop pat.length
    else c :: replaceFirstAux pat cs

/-- `strip(path)` with the given working directory. -/
def stripCwd (cwd p : String) : String :=
  String.mk (replaceFirstAux cwd.data p.data)

/-- `writeDtsBundle` (src/index.ts:30-50): reject (with a plain string!) when
any pre-emit or post-emit diagnostic has error category, or when emission was
skipped; resolve otherwise. -/
def writeDtsBundle (env : TsEnv) : Except JsValue Unit :=
  if (env.preEmit ++ env.emitResult.diagnostics).any
      (fun d => d.category == DiagnosticCategory.error) then
    .error (.str "Error during .d.ts emit")
  else if env.emitResult.emitSkipped then
    .error (.str "Error during .d.ts emit")
  else
    .ok ()

/-- Whether `writeDtsBundle` rejects. -/
def dtsFails (env : TsEnv) : Bool :=
  match writeDtsBundle env with
  | .error _ => true
  | .ok _ => false

/-- `reportOutput` (src/index.ts:168-183): events it emits and whether it
terminated the process. Error severity logs the message and terminates
(abort, then `process.exit(1)`); non-error severity executes
`console.log(log)` — printing the logger object, not the message — only when
verbose. -/
def reportOutputRun (verbose : Bool) (m : BunMessage) : List Ev × Bool :=
  if m.level == "error" then
    ([.logError m.message, .abortSig, .exitProc 1], true)
  else if verbose then ([.logObject], false)
  else ([], false)

/-- The `for (const message of result.logs)` loop of `buildCommonBundle`
(src/index.ts:204-206); `process.exit` never returns, so the loop stops at
the first error-severity message. -/
def reportLogsRun (verbose : Bool) : List BunMessage → List Ev × Bool
  | [] => ([], false)
  | m :: ms =>
    let r := reportOutputRun verbose m
    if r.2 then (r.1, true)
    else
      let rest := reportLogsRun verbose ms
      (r.1 ++ rest.1, rest.2)

/-- The log line opening every `buildCommonBundle` call (src/index.ts:186). -/
def bundleHeader (cwd format entry outDir : String) : Ev :=
  .logOutput format (stripCwd cwd entry ++ " ❯❯❯ " ++ stripCwd cwd outDir ++ "/index.js")

/-- `buildCommonBundle` (src/index.ts:185-207): events and termination flag.
On success the logs are never inspected; on failure they go through
`reportOutput`. -/
def buildCommonBundleRun (cwd : String) (verbose : Bool)
    (format entry outDir : String) (result : BunResult) : List Ev × Bool :=
  let hd := bundleHeader cwd format entry outDir
  if result.success then
    ([hd, .logOutput format ("Build " ++ stripCwd cwd outDir ++ "/index.js")], false)
  else
    let r := reportLogsRun verbose result.logs
    (hd :: r.1, r.2)

/-- `buildDts` (src/index.ts:212-225): on rejection the catch block only logs
and terminates `if (e instanceof Error)`; `writeDtsBundle` rejects with a
plain string, which this guard never matches. -/
def buildDtsRun (cwd : String) (tsEnv : TsEnv) (entry outDir : String) :
    List Ev × Bool :=
  let hd := Ev.logOutput "dts"
    (stripCwd cwd entry ++ " ❯❯❯ " ++ stripCwd cwd outDir ++ "/index.d.ts")
  match writeDtsBundle tsEnv with
  | .ok _ =>
    ([hd, .logOutput "dts" ("Build " ++ stripCwd cwd outDir ++ "/index.d.ts")], false)
  | .error e =>
    match e with
    | .errObj msg => ([hd, .logError msg, .abortSig, .exitProc 1], true)
    | .str _ => ([hd], false)

/-- The output root computed in `build` (src/index.ts:262-265): `basepath` of
the `dirname`s of the three resolved output files. -/
def outputRoot (cwd : String) (m : Manifest) : String :=
  basepath [dirnameP (joinP [cwd, m.main]),
            dirnameP (joinP [cwd, m.module]),
            dirnameP (joinP [cwd, m.types])]

/-- JS truthiness of `manifest.cdn` (src/index.ts:284). -/
def cdnTruthy (m : Manifest) : Bool :=
  match m.cdn with
  | some p => !(p == "")
  | none => false

/-- Sequencing of awaited steps: once a step has terminated the process
(`process.exit`), no later step runs or contributes events. -/
def seqStep (done next : List Ev × Bool) : List Ev × Bool :=
  if done.2 then done else (done.1 ++ next.1, next.2)

/-- The iife step of `build` (src/index.ts:283-286): run only when
`manifest.cdn` is truthy and the target is "browser", otherwise nothing. -/
def iifeStep (cfg : Config) (env : BuildEnv) (m : Manifest) : List Ev × Bool :=
  match m.cdn with
  | some p =>
    if (!(p == "")) && cfg.target == "browser" then
      buildCommonBundleRun env.cwd cfg.verbose "iife" (joinP [env.cwd, m.entry])
        (dirnameP (joinP [env.cwd, p])) env.iifeResult
    else ([], false)
  | none => ([], false)

/-- `build` (src/index.ts:256-290) as a trace of events: optional cleanup,
then esm, cjs, optional iife, declarations, each awaited before the next. -/
def buildRun (cfg : Config) (env : BuildEnv) (m : Manifest) : List Ev :=
  let root := env.cwd
  let entry := joinP [root, m.entry]
  let base := outputRoot root m
  let clean0 : List Ev × Bool :=
    ((if cfg.clean && env.fsExists base then [Ev.rm base] else []), false)
  let r1 := buildCommonBundleRun root cfg.verbose "esm" entry
    (dirnameP (joinP [root, m.module])) env.esmResult
  let r2 := buildCommonBundleRun root cfg.verbose "cjs" entry
    (dirnameP (joinP [root, m.main])) env.cjsResult
  let r3 := iifeStep cfg env m
  let r4 := buildDtsRun root env.dtsEnv entry (dirnameP (joinP [root, m.types]))
  (seqStep (seqStep (seqStep (seqStep clean0 r1) r2) r3) r4).1

/-! ## Watcher (src/index.ts:227-255) -/

/-- One notification of the change stream; `filename` can be null. -/
structure WatchEvent where
  filename : Option String
deriving DecidableEq, Repr

/-- The `output` value of `watchFiles` (src/index.ts:229): `basepath` of the
raw (unresolved) manifest output paths. -/
def watchOutput (m : Manifest) : String :=
  basepath [m.main, m.module, m.types]

/-- The filter of the watch loop (src/index.ts:238):
`change.filename?.startsWith(output)`; a null filename is not discarded. -/
def watchDiscards (output : String) (w : WatchEvent) : Bool :=
  match w.filename with
  | some f => jsStartsWith f output
  | none => false

/-- The watch loop: one awaited rebuild per non-discarded notification. -/
def watchLoopAux (output : String) : List WatchEvent → Nat
  | [] => 0
  | w :: ws => (if watchDiscards output w then 0 else 1) + watchLoopAux output ws

/-- Number of rebuilds triggered by a sequence of change notifications. -/
def watchRun (m : Manifest) (evs : List WatchEvent) : Nat :=
  watchLoopAux (watchOutput m) evs

/-- A path lies under a root directory (equal to it or inside it). -/
def underPath (root p : String) : Bool :=
  p == root || jsStartsWith p (root ++ "/")

/-! ## Observations on traces -/

/-- Event is the opening log line of an emission of the given format. -/
def isFmtLog (f : String) : Ev → Bool
  | .logOutput g _ => g == f
  | _ => false

/-- An emission of format `f` was started in the trace. -/
def formatStarted (tr : List Ev) (f : String) : Bool :=
  tr.any (isFmtLog f)

/-- Event is a recursive removal. -/
def isRmEv : Ev → Bool
  | .rm _ => true
  | _ => false

/-- Event belongs to the diagnostic-reporting policy (a logged diagnostic,
the logger-object print, or termination). -/
def isReportEv : Ev → Bool
  | .logError _ => true
  | .logObject => true
  | .abortSig => true
  | .exitProc _ => true
  | _ => false

/-- Exit status carried by a single event, if any. -/
def exitN : Ev → Option Nat
  | .exitProc n => some n
  | _ => none

/-- Exit status of the trace: code of the first `process.exit` call. -/
def exitCodeOf (tr : List Ev) : Option Nat :=
  tr.findSome? exitN

/-- The result logs contain an error-severity message. -/
def hasErrorMsg (logs : List BunMessage) : Bool :=
  logs.any (fun m => m.level == "error")

/-- A bundler invocation whose reporting terminates the process. -/
def bundleFails (r : BunResult) : Bool :=
  !r.success && hasErrorMsg r.logs

/-- Events printed for a list of messages none of which is an error. -/
def vEvents (verbose : Bool) (msgs : List BunMessage) : List Ev :=
  if verbose then msgs.map (fun _ => Ev.logObject) else []

/-- The standard descriptor from the spec's examples. -/
def distManifest : Manifest :=
  { entry := "./src/index.ts"
    main := "./dist/cjs/index.js"
    module := "./dist/esm/index.js"
    types := "./dist/types/index.d.ts"
    cdn := none
    external := [] }

/-! ## Lemmas: membership in the segment intersection -/

theorem mem_firstDedupAux (a : String) :
    ∀ (l seen : List String), a ∈ firstDedupAux seen l ↔ a ∈ l ∧ a ∉ seen := by
  intro l
  induction l with
  | nil => intro seen; simp [firstDedupAux]
  | cons x xs ih =>
    intro seen
    by_cases hx : x ∈ seen
    · have hc : seen.contains x = true := by
        simp [List.contains, hx]
      simp only [firstDedupAux, hc, if_pos]
      rw [ih]
      constructor
      · rintro ⟨h1, h2⟩; exact ⟨List.mem_cons_of_mem _ h1, h2⟩
      · rintro ⟨h1, h2⟩
        rcases List.mem_cons.mp h1 with rfl | h1
        · exact absurd hx h2
        · exact ⟨h1, h2⟩
    · have hc : seen.contains x = false := by
        simp [List.contains, hx]
      simp only [firstDedupAux, hc, Bool.false_eq_true, if_false]
      rw [List.mem_cons, ih]
      constructor
      · rintro (rfl | ⟨h1, h2⟩)
        · exact ⟨List.mem_cons_self _ _, hx⟩
        · refine ⟨List.mem_cons_of_mem _ h1, fun hs => h2 (List.mem_cons_of_mem _ hs)⟩
      · rintro ⟨h1, h2⟩
        by_cases hax : a = x
        · exact Or.inl hax
        · rcases List.mem_cons.mp h1 with rfl | h1
          · exact absurd rfl hax
          · refine Or.inr ⟨h1, fun hs => ?_⟩
            rcases List.mem_cons.mp hs with rfl | hs
            · exact hax rfl
            · exact h2 hs

theorem mem_firstDedup (a : String) (l : List String) :
    a ∈ firstDedup l ↔ a ∈ l := by
  simpa using mem_firstDedupAux a l []

theorem mem_interOrdered (a : String) (b c : List String) :
    a ∈ interOrdered b c ↔ a ∈ b ∧ a ∈ c := by
  simp [interOrdered, List.contains]

theorem mem_foldl_inter (s : String) :
    ∀ (ps : List (List String)) (acc : List String),
      s ∈ ps.foldl interOrdered acc ↔ s ∈ acc ∧ ∀ p ∈ ps, s ∈ p := by
  intro ps
  induction ps with
  | nil => intro acc; simp
  | cons p ps ih =>
    intro acc
    rw [List.foldl_cons, ih, mem_interOrdered]
    constructor
    · rintro ⟨⟨h1, h2⟩, h3⟩
      exact ⟨h1, fun q hq => by
        rcases List.mem_cons.mp hq with rfl | hq
        · exact h2
        · exact h3 q hq⟩
    · rintro ⟨h1, h2⟩
      exact ⟨⟨h1, h2 p (List.mem_cons_self _ _)⟩,
        fun q hq => h2 q (List.mem_cons_of_mem _ hq)⟩

theorem mem_basepathSegs (s : String) (p : String) (ps : List String) :
    s ∈ basepathSegs (p :: ps) ↔ s ∈ segsOf p ∧ ∀ q ∈ ps, s ∈ segsOf q := by
  show s ∈ (ps.map fun q => firstDedup (segsOf q)).foldl interOrdered
      (firstDedup (segsOf p)) ↔ _
  rw [mem_foldl_inter, mem_firstDedup]
  constructor
  · rintro ⟨h1, h2⟩
    refine ⟨h1, fun q hq => ?_⟩
    have := h2 (firstDedup (segsOf q)) (List.mem_map_of_mem _ hq)
    exact (mem_firstDedup _ _).mp this
  · rintro ⟨h1, h2⟩
    refine ⟨h1, fun x hx => ?_⟩
    obtain ⟨q, hq, rfl⟩ := List.mem_map.mp hx
    exact (mem_firstDedup _ _).mpr (h2 q hq)

theorem mem_basepathSegs_iff (s : String) (l : List String) (hl : l ≠ []) :
    s ∈ basepathSegs l ↔ ∀ q ∈ l, s ∈ segsOf q := by
  rcases l with _ | ⟨p, ps⟩
  · exact absurd rfl hl
  · rw [mem_basepathSegs]
    constructor
    · rintro ⟨h1, h2⟩ q hq
      rcases List.mem_cons.mp hq with rfl | hq
      · exact h1
      · exact h2 q hq
    · intro h
      exact ⟨h p (List.mem_cons_self _ _), fun q hq => h q (List.mem_cons_of_mem _ hq)⟩

/-! ## Lemmas: segments never contain the separator, results stay relative -/

theorem not_sep_splitCharNE (l : List Char) :
    '/' ∉ (splitCharNE l).1 ∧ ∀ seg ∈ (splitCharNE l).2, '/' ∉ seg := by
  induction l with
  | nil => simp [splitCharNE]
  | cons c cs ih =>
    by_cases hc : c = '/'
    · simp only [splitCharNE, hc, if_pos]
      refine ⟨by simp, fun seg hseg => ?_⟩
      rcases List.mem_cons.mp hseg with rfl | hseg
      · exact ih.1
      · exact ih.2 seg hseg
    · simp only [splitCharNE, hc, if_neg, if_false]
      refine ⟨fun hmem => ?_, ih.2⟩
      rcases List.mem_cons.mp hmem with heq | hmem
      · exact hc heq.symm
      · exact ih.1 hmem

theorem not_sep_mem_splitChar (l : List Char) :
    ∀ seg ∈ splitChar l, '/' ∉ seg := by
  intro seg hseg
  rcases List.mem_cons.mp hseg with rfl | hseg
  · exact (not_sep_splitCharNE l).1
  · exact (not_sep_splitCharNE l).2 seg hseg

theorem splitChar_sep_cons (cs : List Char) :
    splitChar ('/' :: cs) = [] :: splitChar cs := by
  simp [splitChar, splitCharNE]

theorem segsOf_no_sep (p : String) : ∀ x ∈ segsOf p, '/' ∉ x.data := by
  intro x hx
  rw [segsOf] at hx
  obtain ⟨seg, hseg, rfl⟩ := List.mem_map.mp hx
  simpa using not_sep_mem_splitChar p.data seg hseg

theorem basepathSegs_no_sep (paths : List String) :
    ∀ x ∈ basepathSegs paths, '/' ∉ x.data := by
  rcases paths with _ | ⟨p, ps⟩
  · intro x hx; simp [basepathSegs] at hx
  · intro x hx
    exact segsOf_no_sep p x ((mem_basepathSegs x p ps).mp hx).1

theorem jsStartsWith_sep_iff (s : String) :
    jsStartsWith s "/" = true ↔ s.data.head? = some '/' := by
  have hd : ("/" : String).data = ['/'] := rfl
  rw [jsStartsWith, hd]
  rcases hs : s.data with _ | ⟨c, cs⟩
  · simp [List.isPrefixOf]
  · simp only [List.isPrefixOf, List.isPrefixOf_nil_left, Bool.and_true,
      List.head?_cons]
    constructor
    · intro h
      have : '/' = c := by simpa using h
      rw [this]
    · intro h
      have : c = '/' := by simpa using h
      simp [this]

theorem jsStartsWith_sep_false (s : String) :
    jsStartsWith s "/" = false ↔ s.data.head? ≠ some '/' := by
  constructor
  · intro h hmem
    have := (jsStartsWith_sep_iff s).mpr hmem
    rw [h] at this
    exact Bool.false_ne_true this
  · intro h
    rcases hb : jsStartsWith s "/" with _ | _
    · rfl
    · exact absurd ((jsStartsWith_sep_iff s).mp hb) h

/-- Every element of a `normSegs` run satisfies any property that holds on the
accumulator, on "..", and on the non-special incoming segments. -/
theorem normSegs_prop (P : String → Prop) (hdd : P "..") (allow : Bool) :
    ∀ (segs acc : List String), (∀ x ∈ acc, P x) →
      (∀ x ∈ segs, x ≠ "" → x ≠ "." → x ≠ ".." → P x) →
      ∀ x ∈ normSegs allow acc segs, P x := by
  intro segs
  induction segs with
  | nil =>
    intro acc hacc _ x hx
    rw [normSegs] at hx
    exact hacc x hx
  | cons seg rest ih =>
    intro acc hacc hsegs x hx
    rw [normSegs] at hx
    have hrest : ∀ y ∈ rest, y ≠ "" → y ≠ "." → y ≠ ".." → P y :=
      fun y hy => hsegs y (List.mem_cons_of_mem _ hy)
    by_cases h1 : seg = "" ∨ seg = "."
    · rw [if_pos h1] at hx
      exact ih acc hacc hrest x hx
    · rw [if_neg h1] at hx
      by_cases h2 : seg = ".."
      · rw [if_pos h2] at hx
        by_cases h3 : acc.getLast? = some ".."
        · rw [if_pos h3] at hx
          rcases allow with _ | _
          · simp only [Bool.false_eq_true, if_false] at hx
            exact ih acc hacc hrest x hx
          · simp only [if_true] at hx
            refine ih (acc ++ [".."]) (fun y hy => ?_) hrest x hx
            rcases List.mem_append.mp hy with hy | hy
            · exact hacc y hy
            · rcases List.mem_singleton.mp hy with rfl
              exact hdd
        · rw [if_neg h3] at hx
          by_cases h4 : acc = []
          · rw [if_pos h4] at hx
            rcases allow with _ | _
            · simp only [Bool.false_eq_true, if_false] at hx
              exact ih acc hacc hrest x hx
            · simp only [if_true] at hx
              refine ih [".."] (fun y hy => ?_) hrest x hx
              rcases List.mem_singleton.mp hy with rfl
              exact hdd
          · rw [if_neg h4] at hx
            exact ih acc.dropLast
              (fun y hy => hacc y (List.dropLast_subset _ hy)) hrest x hx
      · rw [if_neg h2] at hx
        refine ih (acc ++ [seg]) (fun y hy => ?_) hrest x hx
        rcases List.mem_append.mp hy with hy | hy
        · exact hacc y hy
        · have hyy : y = seg := List.mem_singleton.mp hy
          subst hyy
          exact hsegs y (List.mem_cons_self _ _)
            (fun h => h1 (Or.inl h)) (fun h => h1 (Or.inr h)) h2

theorem joinSegs_cons_data (s : String) (rest : List String) :
    ∃ t, (joinSegs (s :: rest)).data = s.data ++ t := by
  cases rest with
  | nil => exact ⟨[], by simp [joinSegs]⟩
  | cons r rs =>
    refine ⟨'/' :: (joinSegs (r :: rs)).data, ?_⟩
    show (s ++ "/" ++ joinSegs (r :: rs)).data = _
    simp [String.data_append]

theorem joinSegs_head (l : List String)
    (hl : ∀ x ∈ l, x ≠ "" ∧ '/' ∉ x.data) :
    (joinSegs l).data.head? ≠ some '/' := by
  cases l with
  | nil => simp [joinSegs]
  | cons s rest =>
    obtain ⟨t, ht⟩ := joinSegs_cons_data s rest
    obtain ⟨hne, hsep⟩ := hl s (List.mem_cons_self _ _)
    rcases hs : s.data with _ | ⟨c, cs⟩
    · exact absurd (String.ext hs) hne
    · rw [ht, hs]
      simp only [List.cons_append, List.head?_cons, ne_eq, Option.some.injEq]
      intro hc
      exact hsep (hs ▸ (hc ▸ List.mem_cons_self c cs))

theorem normalizeP_head {p : String} (h : p.data.head? ≠ some '/') :
    (normalizeP p).data.head? ≠ some '/' := by
  rw [normalizeP]
  by_cases h0 : p = ""
  · rw [if_pos h0]; decide
  · rw [if_neg h0]
    have habs : jsStartsWith p "/" = false := (jsStartsWith_sep_false p).mpr h
    rw [habs]
    simp only [Bool.not_false, Bool.false_eq_true, if_false]
    have hsegs : ∀ x ∈ normSegs true [] (segsOf p), x ≠ "" ∧ '/' ∉ x.data := by
      refine normSegs_prop (fun x => x ≠ "" ∧ '/' ∉ x.data) (by decide) true
        (segsOf p) [] (by simp) ?_
      intro x hx hne _ _
      exact ⟨hne, segsOf_no_sep p x hx⟩
    have hbody := joinSegs_head _ hsegs
    by_cases hb : joinSegs (normSegs true [] (segsOf p)) = ""
    · rw [if_pos hb]
      by_cases htr : (p.data.getLast? == some '/') = true
      · rw [if_pos htr]; decide
      · rw [if_neg htr]; decide
    · rw [if_neg hb]
      by_cases htr : (p.data.getLast? == some '/') = true
      · rw [if_pos htr]
        rcases hbd : (joinSegs (normSegs true [] (segsOf p))).data with _ | ⟨c, cs⟩
        · exact absurd (String.ext hbd) hb
        · rw [String.data_append, hbd]
          simpa [hbd] using hbody
      · rw [if_neg htr]
        exact hbody

theorem basepath_head (paths : List String) :
    (basepath paths).data.head? ≠ some '/' := by
  rw [basepath, joinP]
  rcases hf : (basepathSegs paths).filter (fun s => !(s == "")) with _ | ⟨f, fs⟩
  · decide
  · show (normalizeP (joinSegs (f :: fs))).data.head? ≠ some '/'
    refine normalizeP_head (joinSegs_head _ ?_)
    intro x hx
    have hx' : x ∈ (basepathSegs paths).filter (fun s => !(s == "")) := by
      rw [hf]; exact hx
    obtain ⟨hmem, hne⟩ := List.mem_filter.mp hx'
    refine ⟨by simpa using hne, basepathSegs_no_sep paths x hmem⟩

/-! ## Lemmas: the reporting loop and emission traces -/

theorem isReportEv_not_fmt (f : String) (ev : Ev) (h : isReportEv ev = true) :
    isFmtLog f ev = false := by
  cases ev <;> simp_all [isReportEv, isFmtLog]

theorem isReportEv_not_rm (ev : Ev) (h : isReportEv ev = true) :
    isRmEv ev = false := by
  cases ev <;> simp_all [isReportEv, isRmEv]

theorem reportOutputRun_report (verbose : Bool) (m : BunMessage) :
    ∀ ev ∈ (reportOutputRun verbose m).1, isReportEv ev = true := by
  intro ev hev
  rw [reportOutputRun] at hev
  by_cases he : (m.level == "error") = true
  · rw [if_pos he] at hev
    simp only [List.mem_cons, List.not_mem_nil, or_false] at hev
    rcases hev with rfl | rfl | rfl <;> rfl
  · rw [if_neg he] at hev
    by_cases hv : verbose = true
    · rw [if_pos hv] at hev
      rcases List.mem_singleton.mp hev with rfl
      rfl
    · rw [if_neg hv] at hev
      simp at hev

theorem reportOutputRun_term (verbose : Bool) (m : BunMessage) :
    (reportOutputRun verbose m).2 = (m.level == "error") := by
  rw [reportOutputRun]
  by_cases he : (m.level == "error") = true
  · rw [if_pos he, he]
  · have he' : (m.level == "error") = false := by simpa using he
    rw [if_neg he, he']
    by_cases hv : verbose = true
    · rw [if_pos hv]
    · rw [if_neg hv]

theorem reportLogsRun_report (verbose : Bool) :
    ∀ logs : List BunMessage,
      ∀ ev ∈ (reportLogsRun verbose logs).1, isReportEv ev = true := by
  intro logs
  induction logs with
  | nil => simp [reportLogsRun]
  | cons m ms ih =>
    intro ev hev
    simp only [reportLogsRun] at hev
    split at hev
    · exact reportOutputRun_report verbose m ev hev
    · rcases List.mem_append.mp hev with h | h
      · exact reportOutputRun_report verbose m ev h
      · exact ih ev h

theorem reportLogsRun_term (verbose : Bool) :
    ∀ logs : List BunMessage,
      (reportLogsRun verbose logs).2 = hasErrorMsg logs := by
  intro logs
  induction logs with
  | nil => rfl
  | cons m ms ih =>
    simp only [reportLogsRun]
    by_cases hc : (reportOutputRun verbose m).2 = true
    · rw [if_pos hc]
      have he : (m.level == "error") = true := by
        rw [← reportOutputRun_term verbose m]; exact hc
      simp [hasErrorMsg, he]
    · rw [if_neg hc]
      have he : (m.level == "error") = false := by
        rw [← reportOutputRun_term verbose m]; simpa using hc
      simp only [hasErrorMsg, List.any_cons, he, Bool.false_or]
      exact ih

theorem exitCodeOf_append :
    ∀ (l₁ l₂ : List Ev), (∀ x ∈ l₁, exitN x = none) →
      exitCodeOf (l₁ ++ l₂) = exitCodeOf l₂ := by
  intro l₁
  induction l₁ with
  | nil => intro l₂ _; rfl
  | cons a l ih =>
    intro l₂ h
    have ha : exitN a = none := h a (List.mem_cons_self _ _)
    show List.findSome? exitN (a :: (l ++ l₂)) = _
    rw [List.findSome?_cons_of_isNone _ (by simp [ha])]
    exact ih l₂ (fun x hx => h x (List.mem_cons_of_mem _ hx))

theorem reportLogsRun_exit (verbose : Bool) :
    ∀ logs : List BunMessage, hasErrorMsg logs = true →
      exitCodeOf (reportLogsRun verbose logs).1 = some 1 ∧
        Ev.abortSig ∈ (reportLogsRun verbose logs).1 := by
  intro logs
  induction logs with
  | nil => intro h; simp [hasErrorMsg] at h
  | cons m ms ih =>
    intro h
    by_cases he : (m.level == "error") = true
    · have hc : (reportOutputRun verbose m).2 = true := by
        rw [reportOutputRun_term]; exact he
      simp only [reportLogsRun]
      rw [if_pos hc]
      rw [reportOutputRun, if_pos he]
      exact ⟨rfl, by simp⟩
    · have hc : (reportOutputRun verbose m).2 = true ↔ False := by
        rw [reportOutputRun_term]; simpa using he
      have he' : (m.level == "error") = false := by simpa using he
      have hms : hasErrorMsg ms = true := by
        simpa [hasErrorMsg, he'] using h
      obtain ⟨ih1, ih2⟩ := ih hms
      simp only [reportLogsRun]
      rw [if_neg (by simp [hc])]
      have hnone : ∀ x ∈ (reportOutputRun verbose m).1, exitN x = none := by
        rw [reportOutputRun, if_neg he]
        by_cases hv : verbose = true
        · rw [if_pos hv]
          intro x hx
          rcases List.mem_singleton.mp hx with rfl
          rfl
        · rw [if_neg hv]
          intro x hx
          simp at hx
      constructor
      · show exitCodeOf ((reportOutputRun verbose m).1 ++ (reportLogsRun verbose ms).1) = some 1
        rw [exitCodeOf_append _ _ hnone]
        exact ih1
      · exact List.mem_append.mpr (Or.inr ih2)

theorem buildCommonBundleRun_term (cwd : String) (verbose : Bool)
    (format entry outDir : String) (r : BunResult) :
    (buildCommonBundleRun cwd verbose format entry outDir r).2 = bundleFails r := by
  simp only [buildCommonBundleRun, bundleFails]
  by_cases hs : r.success = true
  · rw [if_pos hs, hs]
    rfl
  · have hs' : r.success = false := by simpa using hs
    rw [if_neg hs, hs']
    show (reportLogsRun verbose r.logs).2 = _
    rw [reportLogsRun_term]
    rfl

theorem buildCommonBundleRun_events (cwd : String) (verbose : Bool)
    (format entry outDir : String) (r : BunResult) :
    ∀ ev ∈ (buildCommonBundleRun cwd verbose format entry outDir r).1,
      (∃ msg, ev = Ev.logOutput format msg) ∨ isReportEv ev = true := by
  intro ev hev
  simp only [buildCommonBundleRun] at hev
  by_cases hs : r.success = true
  · rw [if_pos hs] at hev
    simp only [List.mem_cons, List.not_mem_nil, or_false] at hev
    rcases hev with rfl | rfl
    · exact Or.inl ⟨_, rfl⟩
    · exact Or.inl ⟨_, rfl⟩
  · rw [if_neg hs] at hev
    rcases List.mem_cons.mp hev with rfl | hev
    · exact Or.inl ⟨_, rfl⟩
    · exact Or.inr (reportLogsRun_report verbose r.logs ev hev)

theorem buildDtsRun_events (cwd : String) (tsEnv : TsEnv) (entry outDir : String) :
    ∀ ev ∈ (buildDtsRun cwd tsEnv entry outDir).1,
      (∃ msg, ev = Ev.logOutput "dts" msg) ∨ isReportEv ev = true := by
  intro ev hev
  simp only [buildDtsRun] at hev
  rcases hw : writeDtsBundle tsEnv with e | u
  · rw [hw] at hev
    rcases e with s | msg
    · rcases List.mem_singleton.mp hev with rfl
      exact Or.inl ⟨_, rfl⟩
    · simp only [List.mem_cons, List.not_mem_nil, or_false] at hev
      rcases hev with rfl | rfl | rfl | rfl
      · exact Or.inl ⟨_, rfl⟩
      · exact Or.inr rfl
      · exact Or.inr rfl
      · exact Or.inr rfl
  · rw [hw] at hev
    simp only [List.mem_cons, List.not_mem_nil, or_false] at hev
    rcases hev with rfl | rfl
    · exact Or.inl ⟨_, rfl⟩
    · exact Or.inl ⟨_, rfl⟩

theorem formatStarted_bcb (cwd : String) (verbose : Bool)
    (format entry outDir : String) (r : BunResult) (g : String)
    (hg : ¬(format = g)) :
    formatStarted (buildCommonBundleRun cwd verbose format entry outDir r).1 g
      = false := by
  rw [formatStarted, List.any_eq_false]
  intro ev hev
  rcases buildCommonBundleRun_events cwd verbose format entry outDir r ev hev with
    ⟨msg, rfl⟩ | hrep
  · simpa [isFmtLog] using hg
  · simp [isReportEv_not_fmt g ev hrep]

theorem formatStarted_dts (cwd : String) (tsEnv : TsEnv)
    (entry outDir : String) (g : String) (hg : ¬(g = "dts")) :
    formatStarted (buildDtsRun cwd tsEnv entry outDir).1 g = false := by
  rw [formatStarted, List.any_eq_false]
  intro ev hev
  rcases buildDtsRun_events cwd tsEnv entry outDir ev hev with ⟨msg, rfl⟩ | hrep
  · simp [isFmtLog]
    intro h
    exact hg h.symm
  · simp [isReportEv_not_fmt g ev hrep]

theorem rmFree_bcb (cwd : String) (verbose : Bool)
    (format entry outDir : String) (r : BunResult) :
    (buildCommonBundleRun cwd verbose format entry outDir r).1.any isRmEv
      = false := by
  rw [List.any_eq_false]
  intro ev hev
  rcases buildCommonBundleRun_events cwd verbose format entry outDir r ev hev with
    ⟨msg, rfl⟩ | hrep
  · simp [isRmEv]
  · simp [isReportEv_not_rm ev hrep]

theorem rmFree_dts (cwd : String) (tsEnv : TsEnv) (entry outDir : String) :
    (buildDtsRun cwd tsEnv entry outDir).1.any isRmEv = false := by
  rw [List.any_eq_false]
  intro ev hev
  rcases buildDtsRun_events cwd tsEnv entry outDir ev hev with ⟨msg, rfl⟩ | hrep
  · simp [isRmEv]
  · simp [isReportEv_not_rm ev hrep]

theorem rmFree_iife (cfg : Config) (env : BuildEnv) (m : Manifest) :
    (iifeStep cfg env m).1.any isRmEv = false := by
  rw [iifeStep]
  rcases m.cdn with _ | p
  · rfl
  · show (if (!(p == "")) && cfg.target == "browser" then
        buildCommonBundleRun env.cwd cfg.verbose "iife" (joinP [env.cwd, m.entry])
          (dirnameP (joinP [env.cwd, p])) env.iifeResult
      else (([] : List Ev), false)).1.any isRmEv = false
    by_cases hc : ((!(p == "")) && cfg.target == "browser") = true
    · rw [if_pos hc]
      exact rmFree_bcb _ _ _ _ _ _
    · rw [if_neg hc]
      rfl

theorem formatStarted_iife_off (cfg : Config) (env : BuildEnv) (m : Manifest)
    (g : String) (hg : ¬("iife" = g)) :
    formatStarted (iifeStep cfg env m).1 g = false := by
  rw [iifeStep]
  rcases m.cdn with _ | p
  · rfl
  · show formatStarted (if (!(p == "")) && cfg.target == "browser" then
        buildCommonBundleRun env.cwd cfg.verbose "iife" (joinP [env.cwd, m.entry])
          (dirnameP (joinP [env.cwd, p])) env.iifeResult
      else (([] : List Ev), false)).1 g = false
    by_cases hc : ((!(p == "")) && cfg.target == "browser") = true
    · rw [if_pos hc]
      exact formatStarted_bcb _ _ _ _ _ _ _ hg
    · rw [if_neg hc]
      rfl

/-! ## Lemmas: the sequencing chain -/

theorem chain_first_fails (c r1 r2 r3 r4 : List Ev × Bool)
    (hc : c.2 = false) (h1 : r1.2 = true) :
    (seqStep (seqStep (seqStep (seqStep c r1) r2) r3) r4).1 = c.1 ++ r1.1 := by
  simp [seqStep, hc, h1]

theorem chain_second_fails (c r1 r2 r3 r4 : List Ev × Bool)
    (hc : c.2 = false) (h1 : r1.2 = false) (h2 : r2.2 = true) :
    (seqStep (seqStep (seqStep (seqStep c r1) r2) r3) r4).1
      = c.1 ++ r1.1 ++ r2.1 := by
  simp [seqStep, hc, h1, h2]

theorem chain_third_fails (c r1 r2 r3 r4 : List Ev × Bool)
    (hc : c.2 = false) (h1 : r1.2 = false) (h2 : r2.2 = false)
    (h3 : r3.2 = true) :
    (seqStep (seqStep (seqStep (seqStep c r1) r2) r3) r4).1
      = c.1 ++ r1.1 ++ r2.1 ++ r3.1 := by
  simp [seqStep, hc, h1, h2, h3]

theorem chain_all_run (c r1 r2 r3 r4 : List Ev × Bool)
    (hc : c.2 = false) (h1 : r1.2 = false) (h2 : r2.2 = false)
    (h3 : r3.2 = false) :
    (seqStep (seqStep (seqStep (seqStep c r1) r2) r3) r4).1
      = c.1 ++ r1.1 ++ r2.1 ++ r3.1 ++ r4.1 := by
  simp [seqStep, hc, h1, h2, h3]

theorem formatStarted_append (a b : List Ev) (g : String) :
    formatStarted (a ++ b) g = (formatStarted a g || formatStarted b g) := by
  simp [formatStarted]

theorem formatStarted_clean (b : Bool) (path g : String) :
    formatStarted (if b = true then [Ev.rm path] else []) g = false := by
  cases b with
  | false => rfl
  | true => rfl

theorem exitFree_clean (b : Bool) (path : String) :
    ∀ x ∈ (if b = true then [Ev.rm path] else []), exitN x = none := by
  cases b with
  | false =>
    intro x hx
    rw [if_neg (by simp)] at hx
    simp at hx
  | true =>
    intro x hx
    rw [if_pos rfl] at hx
    rcases List.mem_singleton.mp hx with rfl
    rfl

theorem bcb_fail_exit (cwd : String) (verbose : Bool)
    (format entry outDir : String) (r : BunResult)
    (hs : r.success = false) (he : hasErrorMsg r.logs = true) :
    exitCodeOf (buildCommonBundleRun cwd verbose format entry outDir r).1 = some 1 ∧
    Ev.abortSig ∈ (buildCommonBundleRun cwd verbose format entry outDir r).1 := by
  obtain ⟨h1, h2⟩ := reportLogsRun_exit verbose r.logs he
  simp only [buildCommonBundleRun]
  rw [if_neg (by simp [hs])]
  constructor
  · show exitCodeOf (bundleHeader cwd format entry outDir ::
      (reportLogsRun verbose r.logs).1) = some 1
    rw [exitCodeOf, List.findSome?_cons_of_isNone _ (by rfl)]
    exact h1
  · exact List.mem_cons_of_mem _ h2

theorem formatStarted_bcb_self (cwd : String) (verbose : Bool)
    (format entry outDir : String) (r : BunResult) :
    formatStarted (buildCommonBundleRun cwd verbose format entry outDir r).1
      format = true := by
  simp only [buildCommonBundleRun]
  by_cases hsucc : r.success = true
  · rw [if_pos hsucc]
    simp [formatStarted, isFmtLog, bundleHeader]
  · rw [if_neg hsucc]
    simp [formatStarted, isFmtLog, bundleHeader]

theorem iifeStep_started (cfg : Config) (env : BuildEnv) (m : Manifest) :
    formatStarted (iifeStep cfg env m).1 "iife"
      = (cdnTruthy m && cfg.target == "browser") := by
  rw [iifeStep, cdnTruthy]
  rcases m.cdn with _ | p
  · rfl
  · show formatStarted (if (!(p == "")) && cfg.target == "browser" then
        buildCommonBundleRun env.cwd cfg.verbose "iife" (joinP [env.cwd, m.entry])
          (dirnameP (joinP [env.cwd, p])) env.iifeResult
      else (([] : List Ev), false)).1 "iife" = ((!(p == "")) && cfg.target == "browser")
    by_cases hc : ((!(p == "")) && cfg.target == "browser") = true
    · rw [if_pos hc, hc]
      exact formatStarted_bcb_self _ _ _ _ _ _
    · have hc' : ((!(p == "")) && cfg.target == "browser") = false := by
        simpa using hc
      rw [if_neg hc, hc']
      rfl

theorem chain_decomp (c r1 r2 r3 r4 : List Ev × Bool) (hc : c.2 = false) :
    ∃ rest, (seqStep (seqStep (seqStep (seqStep c r1) r2) r3) r4).1
      = c.1 ++ rest := by
  by_cases h1 : r1.2 = true
  · exact ⟨r1.1, chain_first_fails _ _ _ _ _ hc h1⟩
  · have h1' : r1.2 = false := by simpa using h1
    by_cases h2 : r2.2 = true
    · exact ⟨r1.1 ++ r2.1,
        by rw [chain_second_fails _ _ _ _ _ hc h1' h2, List.append_assoc]⟩
    · have h2' : r2.2 = false := by simpa using h2
      by_cases h3 : r3.2 = true
      · refine ⟨r1.1 ++ r2.1 ++ r3.1, ?_⟩
        rw [chain_third_fails _ _ _ _ _ hc h1' h2' h3]
        simp [List.append_assoc]
      · have h3' : r3.2 = false := by simpa using h3
        refine ⟨r1.1 ++ r2.1 ++ r3.1 ++ r4.1, ?_⟩
        rw [chain_all_run _ _ _ _ _ hc h1' h2' h3']
        simp [List.append_assoc]

theorem chain_rm_free (c r1 r2 r3 r4 : List Ev × Bool) (hc : c.2 = false)
    (h0 : c.1.any isRmEv = false)
    (hr1 : r1.1.any isRmEv = false) (hr2 : r2.1.any isRmEv = false)
    (hr3 : r3.1.any isRmEv = false) (hr4 : r4.1.any isRmEv = false) :
    (seqStep (seqStep (seqStep (seqStep c r1) r2) r3) r4).1.any isRmEv
      = false := by
  by_cases h1 : r1.2 = true
  · rw [chain_first_fails _ _ _ _ _ hc h1]
    simp [h0, hr1]
  · have h1' : r1.2 = false := by simpa using h1
    by_cases h2 : r2.2 = true
    · rw [chain_second_fails _ _ _ _ _ hc h1' h2]
      simp [h0, hr1, hr2]
    · have h2' : r2.2 = false := by simpa using h2
      by_cases h3 : r3.2 = true
      · rw [chain_third_fails _ _ _ _ _ hc h1' h2' h3]
        simp [h0, hr1, hr2, hr3]
      · have h3' : r3.2 = false := by simpa using h3
        rw [chain_all_run _ _ _ _ _ hc h1' h2' h3']
        simp [h0, hr1, hr2, hr3, hr4]

theorem chain_decomp_false (cl : List Ev) (r1 r2 r3 r4 : List Ev × Bool) :
    ∃ rest, (seqStep (seqStep (seqStep (seqStep (cl, false) r1) r2) r3) r4).1
      = cl ++ rest :=
  chain_decomp (cl, false) r1 r2 r3 r4 rfl

theorem chain_rm_free_false (cl : List Ev) (r1 r2 r3 r4 : List Ev × Bool)
    (h0 : cl.any isRmEv = false)
    (hr1 : r1.1.any isRmEv = false) (hr2 : r2.1.any isRmEv = false)
    (hr3 : r3.1.any isRmEv = false) (hr4 : r4.1.any isRmEv = false) :
    (seqStep (seqStep (seqStep (seqStep (cl, false) r1) r2) r3) r4).1.any isRmEv
      = false :=
  chain_rm_free (cl, false) r1 r2 r3 r4 rfl h0 hr1 hr2 hr3 hr4

theorem vEvents_cons (v : Bool) (x : BunMessage) (xs : List BunMessage) :
    vEvents v (x :: xs) = vEvents v [x] ++ vEvents v xs := by
  cases v <;> simp [vEvents]

theorem reportOutputRun_nonerror_events (verbose : Bool) (x : BunMessage)
    (hx : (x.level == "error") = false) :
    (reportOutputRun verbose x).1 = vEvents verbose [x] := by
  rw [reportOutputRun, if_neg (by simp [hx]), vEvents]
  by_cases hv : verbose = true
  · rw [if_pos hv, if_pos hv]
    rfl
  · rw [if_neg hv, if_neg hv]

theorem reportLogsRun_split (verbose : Bool) :
    ∀ (pre : List BunMessage) (mm : BunMessage) (post : List BunMessage),
      (∀ x ∈ pre, (x.level == "error") = false) →
      (mm.level == "error") = true →
      reportLogsRun verbose (pre ++ mm :: post)
        = (vEvents verbose pre ++
            [Ev.logError mm.message, Ev.abortSig, Ev.exitProc 1], true) := by
  intro pre
  induction pre with
  | nil =>
    intro mm post _ he
    have hc : (reportOutputRun verbose mm).2 = true := by
      rw [reportOutputRun_term]; exact he
    simp only [List.nil_append, reportLogsRun]
    rw [if_pos hc, reportOutputRun, if_pos he]
    have hv : vEvents verbose ([] : List BunMessage) = [] := by
      cases verbose <;> rfl
    rw [hv, List.nil_append]
  | cons x xs ih =>
    intro mm post hpre he
    have hx : (x.level == "error") = false := hpre x (List.mem_cons_self _ _)
    have hc : (reportOutputRun verbose x).2 = false := by
      rw [reportOutputRun_term]; exact hx
    simp only [List.cons_append, reportLogsRun]
    rw [if_neg (by simp [hc])]
    show ((reportOutputRun verbose x).1 ++
        (reportLogsRun verbose (xs ++ mm :: post)).1,
        (reportLogsRun verbose (xs ++ mm :: post)).2) = _
    rw [ih mm post (fun y hy => hpre y (List.mem_cons_of_mem _ hy)) he]
    rw [reportOutputRun_nonerror_events verbose x hx]
    show (vEvents verbose [x] ++ (vEvents verbose xs ++
        [Ev.logError mm.message, Ev.abortSig, Ev.exitProc 1]), true) = _
    rw [vEvents_cons verbose x xs, List.append_assoc]

theorem reportLogsRun_noerror (verbose : Bool) :
    ∀ logs : List BunMessage,
      (∀ x ∈ logs, (x.level == "error") = false) →
      reportLogsRun verbose logs = (vEvents verbose logs, false) := by
  intro logs
  induction logs with
  | nil =>
    intro _
    have hv : vEvents verbose ([] : List BunMessage) = [] := by
      cases verbose <;> rfl
    rw [reportLogsRun, hv]
  | cons x xs ih =>
    intro hall
    have hx : (x.level == "error") = false := hall x (List.mem_cons_self _ _)
    have hc : (reportOutputRun verbose x).2 = false := by
      rw [reportOutputRun_term]; exact hx
    simp only [reportLogsRun]
    rw [if_neg (by simp [hc])]
    rw [ih (fun y hy => hall y (List.mem_cons_of_mem _ hy))]
    rw [reportOutputRun_nonerror_events verbose x hx]
    show (vEvents verbose [x] ++ vEvents verbose xs, false)
      = (vEvents verbose (x :: xs), false)
    rw [vEvents_cons verbose x xs]

theorem underPath_starts (root p : String) (h : underPath root p = true) :
    jsStartsWith p root = true := by
  rw [underPath] at h
  rcases Bool.or_eq_true_iff.mp h with h1 | h2
  · have hp : p = root := by simpa using h1
    subst hp
    simp [jsStartsWith, List.isPrefixOf_iff_prefix]
  · rw [jsStartsWith] at h2 ⊢
    rw [List.isPrefixOf_iff_prefix] at h2 ⊢
    refine List.IsPrefix.trans ?_ h2
    exact ⟨['/'], by rw [String.data_append]⟩

/-! ## Claim theorems -/

/-- Claim C1 (code bug): with one error-severity pre-emit diagnostic the
declaration emission fails (`writeDtsBundle` rejects), yet `buildDts` neither
aborts nor exits and logs no error — the rejection value is the plain string
"Error during .d.ts emit", not an `Error` instance, so the
`e instanceof Error` guard in the catch block never fires and the failure
completes the build cycle silently, contradicting the claim. -/
theorem c1_dts_failure_swallowed :
    dtsFails ⟨[⟨DiagnosticCategory.error⟩], ⟨[], false⟩⟩ = true ∧
    (buildDtsRun "/app" ⟨[⟨DiagnosticCategory.error⟩], ⟨[], false⟩⟩
        "/app/src/index.ts" "/app/dist/types").2 = false ∧
    Ev.abortSig ∉ (buildDtsRun "/app" ⟨[⟨DiagnosticCategory.error⟩], ⟨[], false⟩⟩
        "/app/src/index.ts" "/app/dist/types").1 ∧
    exitCodeOf (buildDtsRun "/app" ⟨[⟨DiagnosticCategory.error⟩], ⟨[], false⟩⟩
        "/app/src/index.ts" "/app/dist/types").1 = none ∧
    (buildDtsRun "/app" ⟨[⟨DiagnosticCategory.error⟩], ⟨[], false⟩⟩
        "/app/src/index.ts" "/app/dist/types").1.any
      (fun e => match e with | Ev.logError _ => true | _ => false) = false := by
  refine ⟨rfl, rfl, ?_, rfl, by decide⟩
  decide

/-- Claim C2 (counterexample): for the spec's own example descriptor with
working directory "/app", the computed output root is "app/dist" — the
segment-set intersection keeps the working directory's segments and drops the
leading root — not "./dist" as claimed, and not the deepest common ancestor
"/app/dist" of the resolved output directories. -/
theorem c2_counterexample :
    outputRoot "/app" distManifest = "app/dist" ∧
    outputRoot "/app" distManifest ≠ "./dist" ∧
    outputRoot "/app" distManifest ≠ "/app/dist" := by
  refine ⟨by decide, by decide, by decide⟩

/-- Claim C2 (amended): the cleanup OutputRoot is computed from exactly the
three resolved output directories of main, module and types — a supplied cdn
path never enters the computation — as the rejoined order-preserving
intersection of their path-segment sets, with the leading root segment
dropped; for the example descriptor under "/app" this yields the relative
path "app/dist". -/
theorem c2_output_root_amended :
    (∀ (cwd : String) (m : Manifest) (c : Option String),
        outputRoot cwd { m with cdn := c } = outputRoot cwd m) ∧
    outputRoot "/app" distManifest = "app/dist" :=
  ⟨fun _ _ _ => rfl, by decide⟩

/-- Claim C3 (counterexample): a successful bundler invocation carrying a
warning-severity diagnostic, with verbose enabled, reports nothing at all —
the logs of successful invocations never reach the reporting policy, so the
claim's "holds for diagnostics of successful invocations" fails. -/
theorem c3_counterexample :
    (buildCommonBundleRun "/app" true "esm" "/app/src/index.ts" "/app/dist/esm"
        ⟨true, [⟨"unused import", "warning"⟩]⟩).1.any isReportEv = false ∧
    (buildCommonBundleRun "/app" true "esm" "/app/src/index.ts" "/app/dist/esm"
        ⟨true, [⟨"unused import", "warning"⟩]⟩).2 = false := by
  exact ⟨by decide, rfl⟩

/-- Claim C3 (amended): the reporting policy applies to the diagnostics of a
failed bundler invocation, up to and including the first error-severity one:
an error-severity diagnostic logs its message and terminates (abort and exit
status 1) regardless of verbose, and later diagnostics are not processed; a
non-error diagnostic before the first error produces console output exactly
when verbose is enabled (the code prints the logger object rather than the
message) and is dropped otherwise. Diagnostics of successful invocations are
never reported. -/
theorem c3_reporting_amended (cwd : String) (verbose : Bool)
    (format entry outDir : String) (r : BunResult) :
    (r.success = true →
      (buildCommonBundleRun cwd verbose format entry outDir r).1.any isReportEv
        = false) ∧
    (r.success = false →
      ∀ pre mm post, r.logs = pre ++ mm :: post →
        (∀ x ∈ pre, (x.level == "error") = false) →
        (mm.level == "error") = true →
        buildCommonBundleRun cwd verbose format entry outDir r
          = (bundleHeader cwd format entry outDir ::
              (vEvents verbose pre ++
                [Ev.logError mm.message, Ev.abortSig, Ev.exitProc 1]), true)) ∧
    (r.success = false →
      (∀ x ∈ r.logs, (x.level == "error") = false) →
      buildCommonBundleRun cwd verbose format entry outDir r
        = (bundleHeader cwd format entry outDir :: vEvents verbose r.logs,
            false)) := by
  refine ⟨?_, ?_, ?_⟩
  · intro hs
    simp only [buildCommonBundleRun]
    rw [if_pos hs]
    simp [isReportEv, bundleHeader]
  · intro hs pre mm post hlogs hpre he
    simp only [buildCommonBundleRun]
    rw [if_neg (by simp [hs]), hlogs,
      reportLogsRun_split verbose pre mm post hpre he]
  · intro hs hall
    simp only [buildCommonBundleRun]
    rw [if_neg (by simp [hs]), reportLogsRun_noerror verbose r.logs hall]

/-- Witness for C3 (amended): a failed esm invocation with a warning, then an
error, then another warning, under verbose disabled, logs exactly the error
message and terminates; the trailing diagnostic is never processed. -/
theorem c3_reporting_amended_witness :
    buildCommonBundleRun "/app" false "esm" "/app/src/index.ts" "/app/dist/esm"
        ⟨false, [⟨"w", "warning"⟩, ⟨"boom", "error"⟩, ⟨"ignored", "warning"⟩]⟩
      = (bundleHeader "/app" "esm" "/app/src/index.ts" "/app/dist/esm" ::
          [Ev.logError "boom", Ev.abortSig, Ev.exitProc 1], true) := by
  have h := (c3_reporting_amended "/app" false "esm" "/app/src/index.ts"
    "/app/dist/esm"
    ⟨false, [⟨"w", "warning"⟩, ⟨"boom", "error"⟩, ⟨"ignored", "warning"⟩]⟩).2.1
    rfl [⟨"w", "warning"⟩] ⟨"boom", "error"⟩ [⟨"ignored", "warning"⟩] rfl
    (by decide) (by decide)
  simpa [vEvents] using h

/-- Claim C4 (confirmed): when the bundler reports an error-severity
diagnostic during esm emission (the invocation fails and its logs contain an
error-severity message), the cjs, iife and declaration emissions of that
cycle never start, the cancellation token is signalled, and the process exits
with status 1. -/
theorem c4_esm_error_halts (cfg : Config) (env : BuildEnv) (m : Manifest)
    (hs : env.esmResult.success = false)
    (he : hasErrorMsg env.esmResult.logs = true) :
    formatStarted (buildRun cfg env m) "cjs" = false ∧
    formatStarted (buildRun cfg env m) "iife" = false ∧
    formatStarted (buildRun cfg env m) "dts" = false ∧
    exitCodeOf (buildRun cfg env m) = some 1 ∧
    Ev.abortSig ∈ buildRun cfg env m := by
  have h1 : (buildCommonBundleRun env.cwd cfg.verbose "esm"
      (joinP [env.cwd, m.entry]) (dirnameP (joinP [env.cwd, m.module]))
      env.esmResult).2 = true := by
    rw [buildCommonBundleRun_term]
    simp [bundleFails, hs, he]
  obtain ⟨hx1, hx2⟩ := bcb_fail_exit env.cwd cfg.verbose "esm"
    (joinP [env.cwd, m.entry]) (dirnameP (joinP [env.cwd, m.module]))
    env.esmResult hs he
  simp only [buildRun]
  rw [chain_first_fails _ _ _ _ _ rfl h1]
  refine ⟨?_, ?_, ?_, ?_, ?_⟩
  · rw [formatStarted_append, formatStarted_clean,
      formatStarted_bcb _ _ _ _ _ _ _ (by decide : ¬("esm" = "cjs"))]
    rfl
  · rw [formatStarted_append, formatStarted_clean,
      formatStarted_bcb _ _ _ _ _ _ _ (by decide : ¬("esm" = "iife"))]
    rfl
  · rw [formatStarted_append, formatStarted_clean,
      formatStarted_bcb _ _ _ _ _ _ _ (by decide : ¬("esm" = "dts"))]
    rfl
  · rw [exitCodeOf_append _ _ (exitFree_clean _ _)]
    exact hx1
  · exact List.mem_append.mpr (Or.inr hx2)

/-- Witness for C4 at a concrete failing esm result. -/
theorem c4_esm_error_halts_witness :
    formatStarted (buildRun ⟨"bun", true, true, false⟩
      ⟨"/app", ⟨false, [⟨"boom", "error"⟩]⟩, ⟨true, []⟩, ⟨true, []⟩,
        ⟨[], ⟨[], false⟩⟩, fun _ => false⟩ distManifest) "cjs" = false ∧
    formatStarted (buildRun ⟨"bun", true, true, false⟩
      ⟨"/app", ⟨false, [⟨"boom", "error"⟩]⟩, ⟨true, []⟩, ⟨true, []⟩,
        ⟨[], ⟨[], false⟩⟩, fun _ => false⟩ distManifest) "iife" = false ∧
    formatStarted (buildRun ⟨"bun", true, true, false⟩
      ⟨"/app", ⟨false, [⟨"boom", "error"⟩]⟩, ⟨true, []⟩, ⟨true, []⟩,
        ⟨[], ⟨[], false⟩⟩, fun _ => false⟩ distManifest) "dts" = false ∧
    exitCodeOf (buildRun ⟨"bun", true, true, false⟩
      ⟨"/app", ⟨false, [⟨"boom", "error"⟩]⟩, ⟨true, []⟩, ⟨true, []⟩,
        ⟨[], ⟨[], false⟩⟩, fun _ => false⟩ distManifest) = some 1 ∧
    Ev.abortSig ∈ buildRun ⟨"bun", true, true, false⟩
      ⟨"/app", ⟨false, [⟨"boom", "error"⟩]⟩, ⟨true, []⟩, ⟨true, []⟩,
        ⟨[], ⟨[], false⟩⟩, fun _ => false⟩ distManifest :=
  c4_esm_error_halts _ _ _ rfl (by decide)

/-- Claim C5 (confirmed): provided no earlier step terminated the cycle (the
esm and cjs invocations do not fail with an error-severity diagnostic), the
iife emission is started if and only if the descriptor supplies a non-empty
cdn output path and the configured target is "browser"; otherwise the step
contributes nothing to the trace. -/
theorem c5_iife_iff (cfg : Config) (env : BuildEnv) (m : Manifest)
    (h1 : bundleFails env.esmResult = false)
    (h2 : bundleFails env.cjsResult = false) :
    formatStarted (buildRun cfg env m) "iife"
      = (cdnTruthy m && cfg.target == "browser") := by
  have t1 : (buildCommonBundleRun env.cwd cfg.verbose "esm"
      (joinP [env.cwd, m.entry]) (dirnameP (joinP [env.cwd, m.module]))
      env.esmResult).2 = false := by
    rw [buildCommonBundleRun_term]; exact h1
  have t2 : (buildCommonBundleRun env.cwd cfg.verbose "cjs"
      (joinP [env.cwd, m.entry]) (dirnameP (joinP [env.cwd, m.main]))
      env.cjsResult).2 = false := by
    rw [buildCommonBundleRun_term]; exact h2
  simp only [buildRun]
  by_cases t3 : (iifeStep cfg env m).2 = true
  · rw [chain_third_fails _ _ _ _ _ rfl t1 t2 t3]
    rw [formatStarted_append, formatStarted_append, formatStarted_append,
      formatStarted_clean,
      formatStarted_bcb _ _ _ _ _ _ _ (by decide : ¬("esm" = "iife")),
      formatStarted_bcb _ _ _ _ _ _ _ (by decide : ¬("cjs" = "iife")),
      iifeStep_started]
    simp
  · have t3' : (iifeStep cfg env m).2 = false := by simpa using t3
    rw [chain_all_run _ _ _ _ _ rfl t1 t2 t3']
    rw [formatStarted_append, formatStarted_append, formatStarted_append,
      formatStarted_append, formatStarted_clean,
      formatStarted_bcb _ _ _ _ _ _ _ (by decide : ¬("esm" = "iife")),
      formatStarted_bcb _ _ _ _ _ _ _ (by decide : ¬("cjs" = "iife")),
      iifeStep_started,
      formatStarted_dts _ _ _ _ _ (by decide : ¬("iife" = "dts"))]
    simp

/-- Witness for C5: browser target with a cdn path starts an iife emission. -/
theorem c5_iife_iff_witness :
    formatStarted (buildRun ⟨"browser", true, true, false⟩
      ⟨"/app", ⟨true, []⟩, ⟨true, []⟩, ⟨true, []⟩, ⟨[], ⟨[], false⟩⟩,
        fun _ => false⟩
      { distManifest with cdn := some "./dist/cdn/index.js" }) "iife"
      = true := by
  have h := c5_iife_iff ⟨"browser", true, true, false⟩
    ⟨"/app", ⟨true, []⟩, ⟨true, []⟩, ⟨true, []⟩, ⟨[], ⟨[], false⟩⟩,
      fun _ => false⟩
    { distManifest with cdn := some "./dist/cdn/index.js" } rfl rfl
  rw [h]
  decide

/-- Claim C6 (confirmed): with the clean flag enabled and an existing
computed OutputRoot, the recursive removal of the OutputRoot is the very
first action of the build cycle, before any emission; with the flag disabled
or the root absent, no removal occurs anywhere in the cycle. -/
theorem c6_clean_behavior (cfg : Config) (env : BuildEnv) (m : Manifest) :
    (cfg.clean = true → env.fsExists (outputRoot env.cwd m) = true →
      (buildRun cfg env m).head? = some (Ev.rm (outputRoot env.cwd m))) ∧
    ((cfg.clean && env.fsExists (outputRoot env.cwd m)) = false →
      (buildRun cfg env m).any isRmEv = false) := by
  constructor
  · intro hc hf
    have hcl : (if (cfg.clean && env.fsExists (outputRoot env.cwd m)) = true
        then [Ev.rm (outputRoot env.cwd m)] else [])
        = [Ev.rm (outputRoot env.cwd m)] := by
      rw [if_pos (by simp [hc, hf])]
    simp only [buildRun]
    obtain ⟨rest, hrest⟩ := chain_decomp_false
      (if (cfg.clean && env.fsExists (outputRoot env.cwd m)) = true
        then [Ev.rm (outputRoot env.cwd m)] else []) _ _ _ _
    rw [hrest, hcl]
    rfl
  · intro hoff
    have hcl : (if (cfg.clean && env.fsExists (outputRoot env.cwd m)) = true
        then [Ev.rm (outputRoot env.cwd m)] else []) = [] := by
      rw [if_neg (by simp [hoff])]
    simp only [buildRun]
    refine chain_rm_free_false _ _ _ _ _ ?_ ?_ ?_ ?_ ?_
    · rw [hcl]; rfl
    · exact rmFree_bcb _ _ _ _ _ _
    · exact rmFree_bcb _ _ _ _ _ _
    · exact rmFree_iife _ _ _
    · exact rmFree_dts _ _ _ _

/-- Witness for C6: with clean enabled and the root "app/dist" existing, the
first event of the cycle removes it. -/
theorem c6_clean_behavior_witness :
    (buildRun ⟨"bun", true, true, false⟩
      ⟨"/app", ⟨true, []⟩, ⟨true, []⟩, ⟨true, []⟩, ⟨[], ⟨[], false⟩⟩,
        fun _ => true⟩ distManifest).head?
      = some (Ev.rm "app/dist") := by
  have h := (c6_clean_behavior ⟨"bun", true, true, false⟩
    ⟨"/app", ⟨true, []⟩, ⟨true, []⟩, ⟨true, []⟩, ⟨[], ⟨[], false⟩⟩,
      fun _ => true⟩ distManifest).1 rfl rfl
  have hroot : outputRoot "/app" distManifest = "app/dist" := by decide
  rw [hroot] at h
  exact h

/-- Claim C7 (counterexample): the change notification "distextra/b.ts" lies
outside the computed output root "dist" of the example descriptor, yet it is
discarded — its name string begins with "dist" — and triggers no rebuild,
where the claim requires exactly one. -/
theorem c7_counterexample :
    watchOutput distManifest = "dist" ∧
    underPath (watchOutput distManifest) "distextra/b.ts" = false ∧
    watchRun distManifest [⟨some "distextra/b.ts"⟩] = 0 := by
  refine ⟨by decide, by decide, by decide⟩

/-- Claim C7 (amended): while watching, a change notification is discarded
precisely when its name string begins with the computed output string — in
particular every path under the computed output root is discarded and never
triggers a rebuild — and a notification whose name does not begin with that
string triggers exactly one rebuild. -/
theorem c7_watch_filter_amended (m : Manifest) (f : String) :
    (underPath (watchOutput m) f = true → watchRun m [⟨some f⟩] = 0) ∧
    (jsStartsWith f (watchOutput m) = true → watchRun m [⟨some f⟩] = 0) ∧
    (jsStartsWith f (watchOutput m) = false → watchRun m [⟨some f⟩] = 1) := by
  refine ⟨?_, ?_, ?_⟩
  · intro h
    have hpre : jsStartsWith f (watchOutput m) = true :=
      underPath_starts (watchOutput m) f h
    simp [watchRun, watchLoopAux, watchDiscards, hpre]
  · intro h
    simp [watchRun, watchLoopAux, watchDiscards, h]
  · intro h
    simp [watchRun, watchLoopAux, watchDiscards, h]

/-- Witness for C7 (amended): a source-file change notification outside the
output root triggers exactly one rebuild. -/
theorem c7_watch_filter_amended_witness :
    watchRun distManifest [⟨some "index.ts"⟩] = 1 :=
  (c7_watch_filter_amended distManifest "index.ts").2.2 (by decide)

/-- Claim C8 (counterexample): `basepath` is not order-independent — swapping
the two paths "/a/b" and "/b/a" (a permutation) changes the result from
"a/b" to "b/a", because the surviving segments are ordered by the first
path's segment order. -/
theorem c8_counterexample :
    List.Perm ["/a/b", "/b/a"] ["/b/a", "/a/b"] ∧
    basepath ["/a/b", "/b/a"] = "a/b" ∧
    basepath ["/b/a", "/a/b"] = "b/a" ∧
    basepath ["/a/b", "/b/a"] ≠ basepath ["/b/a", "/a/b"] := by
  refine ⟨List.Perm.swap _ _ _, by decide, by decide, by decide⟩

/-- Claim C8 (amended): the SET of segments surviving the intersection is
order-independent — for any permutation of a path list, a segment belongs to
the computed intersection of the one exactly when it belongs to that of the
other — but their order, and hence the rejoined result path, follows the
first path of the list. -/
theorem c8_perm_amended (l₁ l₂ : List String) (hp : l₁.Perm l₂) (s : String) :
    s ∈ basepathSegs l₁ ↔ s ∈ basepathSegs l₂ := by
  rcases l₁ with _ | ⟨p, ps⟩
  · have h2 : l₂ = [] := by
      have := hp.length_eq
      simpa using (List.length_eq_zero.mp this.symm)
    rw [h2]
  · have h2ne : l₂ ≠ [] := by
      intro h
      rw [h] at hp
      have := hp.length_eq
      simp at this
    rw [mem_basepathSegs_iff s _ (by simp), mem_basepathSegs_iff s _ h2ne]
    constructor
    · intro h q hq
      exact h q (hp.mem_iff.mpr hq)
    · intro h q hq
      exact h q (hp.mem_iff.mp hq)

/-- Witness for C8 (amended) at the concrete swapped lists. -/
theorem c8_perm_amended_witness :
    "a" ∈ basepathSegs ["/a/b", "/b/a"] ↔ "a" ∈ basepathSegs ["/b/a", "/a/b"] :=
  c8_perm_amended _ _ (List.Perm.swap _ _ _) "a"

/-- Claim C9 (confirmed): for a non-empty list of absolute paths, the empty
root segment survives the intersection but is discarded by the rejoining, so
`basepath` never begins with the separator; in particular the output root
computed in `build` is always a relative path, resolved against the working
directory by the later existence check and removal. -/
theorem c9_relative_root :
    (∀ paths : List String, paths ≠ [] →
        (∀ p ∈ paths, jsStartsWith p "/" = true) →
        "" ∈ basepathSegs paths ∧ jsStartsWith (basepath paths) "/" = false) ∧
    (∀ (cwd : String) (m : Manifest),
        jsStartsWith (outputRoot cwd m) "/" = false) := by
  constructor
  · intro paths hne habs
    constructor
    · rw [mem_basepathSegs_iff _ _ hne]
      intro q hq
      have hq' := habs q hq
      rw [jsStartsWith_sep_iff] at hq'
      rcases hd : q.data with _ | ⟨c, cs⟩
      · rw [hd] at hq'
        simp at hq'
      · rw [hd] at hq'
        have hcc : c = '/' := by simpa using hq'
        subst hcc
        rw [segsOf, hd, splitChar_sep_cons, List.map_cons]
        exact List.mem_cons_self _ _
    · rw [jsStartsWith_sep_false]
      exact basepath_head paths
  · intro cwd m
    rw [jsStartsWith_sep_false, outputRoot]
    exact basepath_head _

/-- Witness for C9 at concrete absolute paths and a concrete build. -/
theorem c9_relative_root_witness :
    ("" ∈ basepathSegs ["/a/b", "/a/c"] ∧
      jsStartsWith (basepath ["/a/b", "/a/c"]) "/" = false) ∧
    jsStartsWith (outputRoot "/app" distManifest) "/" = false :=
  ⟨c9_relative_root.1 ["/a/b", "/a/c"] (by decide) (by decide),
    c9_relative_root.2 "/app" distManifest⟩

/-- Claim C10 (confirmed): the watcher's filter is a plain string-prefix
test: for the example descriptor the computed output string is "dist", and
the notification "dist2/a.ts" — outside the output root — is nevertheless
discarded and triggers no rebuild. -/
theorem c10_string_prefix_discard :
    watchOutput distManifest = "dist" ∧
    underPath "dist" "dist2/a.ts" = false ∧
    jsStartsWith "dist2/a.ts" "dist" = true ∧
    watchRun distManifest [⟨some "dist2/a.ts"⟩] = 0 := by
  refine ⟨by decide, by decide, by decide, by decide⟩

end BunPkg
